import Mathlib

/-!
Verification of the `openness_classifier` package specification.

The repository file `openness_classifier/__init__.py` fixes the public
surface (`__all__`) and the category documentation; the implementation
modules it imports (`core`, `prompts`, `batch`, `validation`, `data`,
`config`, `classifier`) are declared there but their bodies are not part
of the shipped sources.  Definitions below that embed those missing
bodies are modelled from the specification and say so in their doc
comments.
-/

/-- The four openness categories, ordered from most to least open
(`open`, `mostly_open`, `mostly_closed`, `closed`), as documented in the
package docstring. -/
inductive OpennessCategory where
  | open_
  | mostly_open
  | mostly_closed
  | closed
deriving DecidableEq, Repr

/-- Statement kind: a data-availability or a code-availability statement. -/
inductive ClassificationType where
  | data
  | code
deriving DecidableEq, Repr

/-- The fixed enumeration order of the categories, most open first. -/
def allCategories : List OpennessCategory :=
  [.open_, .mostly_open, .mostly_closed, .closed]

/-- A classification result: category, confidence in `[0,1]`, optional
rationale, and the statement type it was produced for. -/
structure Classification where
  category : OpennessCategory
  confidence : ℚ
  rationale : Option String
  stype : ClassificationType
deriving DecidableEq, Repr

/-- The two `ValidationError` kinds of the error taxonomy. -/
inductive ValidationErrorKind where
  | unparseable_response
  | insufficient_pool
deriving DecidableEq, Repr

/-- The exact `__all__` export list of `openness_classifier/__init__.py`. -/
def all_exports : List String :=
  [ "__version__",
    "OpennessCategory", "ClassificationType", "Classification",
    "LLMConfiguration", "LLMProviderType", "BatchStatus", "LLMProvider",
    "ClassificationLogger",
    "ClassificationError", "LLMError", "ConfigurationError", "DataError",
    "ValidationError",
    "ClassifierConfig", "load_config", "save_config",
    "Publication", "TrainingExample", "EmbeddingModel",
    "load_training_data", "train_test_split", "validate_training_data",
    "reload_training_data", "compute_embeddings",
    "OpennessClassifier", "classify_statement", "classify_publication",
    "get_classifier", "identify_low_confidence", "suggest_training_examples",
    "BatchJob", "classify_csv",
    "ClassificationMetrics", "ValidationResult", "compute_metrics",
    "validate_classifications", "cross_validate", "performance_comparison",
    "SYSTEM_PROMPT", "build_few_shot_prompt", "select_knn_examples",
    "parse_classification_response" ]

/-- C10: the public `__all__` list exports the configuration persistence
operations (`load_config`, `save_config`) and the file-I/O operations
(`classify_csv`, `load_training_data`) alongside the core classification
engine symbols. -/
theorem spec_C10_public_exports :
    "load_config" ∈ all_exports ∧ "save_config" ∈ all_exports ∧
    "classify_csv" ∈ all_exports ∧ "load_training_data" ∈ all_exports ∧
    "OpennessClassifier" ∈ all_exports ∧ "classify_statement" ∈ all_exports ∧
    "select_knn_examples" ∈ all_exports ∧
    "parse_classification_response" ∈ all_exports ∧
    "compute_metrics" ∈ all_exports ∧ "BatchJob" ∈ all_exports := by
  decide

/-! ## Validation metrics (`openness_classifier.validation`) -/

/-- Modelled from the spec: `compute_metrics` builds the confusion matrix
by counting every (predicted, actual) pair; the cell for predicted `p`
and actual `a` counts the pairs equal to `(p, a)` (zero where absent). -/
def confusionCount (pairs : List (OpennessCategory × OpennessCategory))
    (p a : OpennessCategory) : ℕ :=
  pairs.countP fun q => decide (q.1 = p ∧ q.2 = a)

/-- Number of evaluated pairs whose prediction equals the ground truth. -/
def countCorrect (pairs : List (OpennessCategory × OpennessCategory)) : ℕ :=
  pairs.countP fun q => decide (q.1 = q.2)

/-- Derived classification metrics: overall accuracy and the 4x4
confusion matrix (a total function over the category enumeration). -/
structure ClassificationMetrics where
  accuracy : ℚ
  confusion : OpennessCategory → OpennessCategory → ℕ
  evaluated : ℕ

/-- Modelled from the spec: `compute_metrics` over a list of
(predicted, actual) pairs — accuracy is correct/total, and the confusion
matrix counts every pair. -/
def compute_metrics (pairs : List (OpennessCategory × OpennessCategory)) :
    ClassificationMetrics :=
  { accuracy := (countCorrect pairs : ℚ) / (pairs.length : ℚ)
    confusion := confusionCount pairs
    evaluated := pairs.length }

/-- Total count over all 16 cells of a confusion matrix. -/
def matrixTotal (m : OpennessCategory → OpennessCategory → ℕ) : ℕ :=
  (allCategories.map fun p => (allCategories.map fun a => m p a).sum).sum

/-- Sum of the diagonal cells of a confusion matrix. -/
def matrixDiag (m : OpennessCategory → OpennessCategory → ℕ) : ℕ :=
  (allCategories.map fun c => m c c).sum

theorem matrixTotal_confusion (pairs : List (OpennessCategory × OpennessCategory)) :
    matrixTotal (confusionCount pairs) = pairs.length := by
  induction pairs with
  | nil => rfl
  | cons x l ih =>
    rcases x with ⟨p, a⟩
    cases p <;> cases a <;>
      (simp [matrixTotal, allCategories, confusionCount,
        List.countP_cons] at ih ⊢; omega)

theorem matrixDiag_confusion (pairs : List (OpennessCategory × OpennessCategory)) :
    matrixDiag (confusionCount pairs) = countCorrect pairs := by
  induction pairs with
  | nil => rfl
  | cons x l ih =>
    rcases x with ⟨p, a⟩
    cases p <;> cases a <;>
      (simp [matrixDiag, allCategories, confusionCount, countCorrect,
        List.countP_cons] at ih ⊢; omega)

/-- C5: the confusion matrix is total over the 4-value enumeration (4x4
with zero-filled absent cells), its 16 cells sum to the number of
evaluated pairs, its diagonal sums to the correct-prediction count, and
accuracy equals that correct count divided by the number of pairs. -/
theorem spec_C5_metrics (pairs : List (OpennessCategory × OpennessCategory)) :
    allCategories.length = 4 ∧
    matrixTotal ((compute_metrics pairs).confusion) = pairs.length ∧
    matrixDiag ((compute_metrics pairs).confusion) = countCorrect pairs ∧
    (compute_metrics pairs).accuracy =
      (matrixDiag ((compute_metrics pairs).confusion) : ℚ) /
        ((compute_metrics pairs).evaluated : ℚ) := by
  refine ⟨rfl, matrixTotal_confusion pairs, matrixDiag_confusion pairs, ?_⟩
  simp [compute_metrics, matrixDiag_confusion pairs]

/-! ## Response parsing (`openness_classifier.prompts`) -/

/-- `needle` is an initial segment of `haystack` (on character lists). -/
def charsStart : List Char → List Char → Bool
  | [], _ => true
  | _ :: _, [] => false
  | a :: as, b :: bs => a = b && charsStart as bs

/-- `needle` occurs contiguously somewhere inside `haystack`. -/
def charsContain (needle : List Char) : List Char → Bool
  | [] => charsStart needle []
  | c :: cs => charsStart needle (c :: cs) || charsContain needle cs

/-- The canonical (normalized) name of each category. -/
def categoryName : OpennessCategory → String
  | .open_ => "open"
  | .mostly_open => "mostly_open"
  | .mostly_closed => "mostly_closed"
  | .closed => "closed"

/-- Whitespace characters stripped from the ends of the category token. -/
def isSpaceChar (c : Char) : Bool := c = ' ' ∨ c = '\t' ∨ c = '\n' ∨ c = '\r'

/-- Modelled from the spec: normalization of the category token found in
the raw model text — trim surrounding whitespace, lower-case, and map the
separator characters (space, hyphen) to underscores. -/
def normalizeChars (l : List Char) : List Char :=
  ((((l.dropWhile isSpaceChar).reverse.dropWhile isSpaceChar).reverse).map
    Char.toLower).map fun c => if c = ' ' ∨ c = '-' then '_' else c

/-- String form of `normalizeChars`. -/
def normalizeCategoryText (s : String) : String := ⟨normalizeChars s.data⟩

/-- Fuzzy-match candidate order: the longer category names are tried
first so that a text mentioning them is never captured by the shorter
names they contain. -/
def fuzzyOrder : List OpennessCategory :=
  [.mostly_open, .mostly_closed, .open_, .closed]

/-- Modelled from the spec: category matching of `ResponseParser.parse` —
first an exact enumeration match on the normalized token, then a
best-effort substring match against the four category names, otherwise
no category. -/
def matchCategory (raw : String) : Option OpennessCategory :=
  let n := normalizeCategoryText raw
  match allCategories.find? (fun c => categoryName c == n) with
  | some c => some c
  | none =>
      fuzzyOrder.find? fun c => charsContain (categoryName c).toList n.toList

/-- Clamp a rational into the unit interval `[0,1]`. -/
def clampUnit (x : ℚ) : ℚ := max 0 (min 1 x)

/-- A raw model response after field splitting: the free text of the
category field, the numeric confidence field when present, and the
rationale field when present.  Modelled from the spec: the lexical
splitting of the raw text into CATEGORY/CONFIDENCE/RATIONALE fields is
the prompt-format handshake and is abstracted here. -/
structure RawResponse where
  categoryText : String
  confidence : Option ℚ
  rationale : Option String
deriving DecidableEq, Repr

/-- Modelled from the spec: `parse_classification_response`
(`ResponseParser.parse`) — resolve the category by normalization, exact
match, then fuzzy match, failing with `unparseable_response` when
unresolved; default the missing confidence to the documented sentinel
`1/2` and clamp it into `[0,1]`. -/
def parse_classification_response (raw : RawResponse)
    (st : ClassificationType) : Except ValidationErrorKind Classification :=
  match matchCategory raw.categoryText with
  | none => .error .unparseable_response
  | some c =>
      .ok { category := c
            confidence := clampUnit ((raw.confidence).getD (1 / 2))
            rationale := raw.rationale
            stype := st }

/-- C1: for every raw response and statement type, the parser either
returns a classification whose category is one of the four enumerated
values, or fails with `ValidationError(kind=unparseable_response)`; it
never produces an unrecognized category and never substitutes a default
category when the text is unresolvable. -/
theorem spec_C1_parser_category (raw : RawResponse) (st : ClassificationType) :
    (∃ c, parse_classification_response raw st = .ok c ∧
      c.category ∈ allCategories) ∨
    parse_classification_response raw st =
      .error ValidationErrorKind.unparseable_response := by
  unfold parse_classification_response
  cases h : matchCategory raw.categoryText with
  | none => exact Or.inr rfl
  | some c =>
      refine Or.inl ⟨_, rfl, ?_⟩
      cases c <;> simp [allCategories]

theorem clampUnit_mem (x : ℚ) : 0 ≤ clampUnit x ∧ clampUnit x ≤ 1 := by
  unfold clampUnit
  refine ⟨le_max_left 0 _, max_le (by norm_num) (min_le_left 1 x)⟩

/-- C7: out-of-range confidence values are clamped, never cause a
rejection — whether parsing succeeds does not depend on the confidence
field at all — and every classification the parser returns carries a
confidence inside `[0,1]`. -/
theorem spec_C7_confidence_clamped (raw : RawResponse)
    (st : ClassificationType) (x : ℚ) :
    ((parse_classification_response { raw with confidence := some x } st).isOk
      = (parse_classification_response raw st).isOk) ∧
    (∀ c, parse_classification_response raw st = .ok c →
      0 ≤ c.confidence ∧ c.confidence ≤ 1) := by
  constructor
  · unfold parse_classification_response
    cases h : matchCategory raw.categoryText <;> simp [Except.isOk, Except.toBool]
  · intro c hc
    unfold parse_classification_response at hc
    cases h : matchCategory raw.categoryText with
    | none => rw [h] at hc; exact absurd hc (by simp)
    | some cat =>
        rw [h] at hc
        have : c = { category := cat
                     confidence := clampUnit ((raw.confidence).getD (1 / 2))
                     rationale := raw.rationale
                     stype := st } := by
          simpa using hc.symm
        rw [this]
        exact clampUnit_mem _

/-- C7 witness: a concrete response whose confidence field `7` lies
outside `[0,1]` still parses, and the returned confidence is clamped. -/
theorem spec_C7_confidence_clamped_witness :
    0 ≤ (Classification.mk OpennessCategory.mostly_open (clampUnit 7)
        none ClassificationType.data).confidence ∧
    (Classification.mk OpennessCategory.mostly_open (clampUnit 7)
        none ClassificationType.data).confidence ≤ 1 :=
  (spec_C7_confidence_clamped
    { categoryText := " Mostly Open ", confidence := some 7, rationale := none }
    ClassificationType.data 7).2 _ (by rfl)

/-! ## Category semantics of the package docstring -/

/-- Modelled from the spec: the category definitions documented in the
package docstring — `closed` means not accessible and explicitly
includes availability-upon-request statements.  Only the upon/request
marker is operational in the documentation; other statements are left
unclassified by this reference semantics. -/
def docstring_category (s : String) : Option OpennessCategory :=
  let l := s.data.map Char.toLower
  if charsContain ("upon".data) l && charsContain ("request".data) l then
    some OpennessCategory.closed
  else
    none

/-- C9: the statement "Data available upon reasonable request" falls in
the `closed` category under the documented category semantics. -/
theorem spec_C9_upon_request_closed :
    docstring_category "Data available upon reasonable request" =
      some OpennessCategory.closed := by
  rfl

/-! ## KNN example selection (`openness_classifier.prompts`) -/

/-- A labeled training example: statement text, statement kind, ground
truth category, and its (pre-computed) embedding vector. -/
structure TrainingExample where
  statement : String
  stype : ClassificationType
  category : OpennessCategory
  embedding : List ℚ
deriving DecidableEq, Repr

/-- Distance from the query to an example under the configured metric. -/
def knnDist (d : List ℚ → List ℚ → ℚ) (q : List ℚ) (e : TrainingExample) : ℚ :=
  d q e.embedding

/-- The ranking relation of the selector on index-annotated examples:
strictly smaller distance first, distance ties resolved by the original
pool insertion index. -/
def knnRel (d : List ℚ → List ℚ → ℚ) (q : List ℚ)
    (a b : ℕ × TrainingExample) : Prop :=
  knnDist d q a.2 < knnDist d q b.2 ∨
    (knnDist d q a.2 = knnDist d q b.2 ∧ a.1 ≤ b.1)

instance (d : List ℚ → List ℚ → ℚ) (q : List ℚ) : DecidableRel (knnRel d q) :=
  fun a b => inferInstanceAs (Decidable (_ ∨ _ ∧ _))

instance (d : List ℚ → List ℚ → ℚ) (q : List ℚ) :
    IsTotal (ℕ × TrainingExample) (knnRel d q) := by
  constructor
  intro a b
  rcases lt_trichotomy (knnDist d q a.2) (knnDist d q b.2) with h | h | h
  · exact Or.inl (Or.inl h)
  · rcases Nat.le_total a.1 b.1 with hi | hi
    · exact Or.inl (Or.inr ⟨h, hi⟩)
    · exact Or.inr (Or.inr ⟨h.symm, hi⟩)
  · exact Or.inr (Or.inl h)

instance (d : List ℚ → List ℚ → ℚ) (q : List ℚ) :
    IsTrans (ℕ × TrainingExample) (knnRel d q) := by
  constructor
  intro a b c hab hbc
  rcases hab with hab | ⟨hab, hiab⟩ <;> rcases hbc with hbc | ⟨hbc, hibc⟩
  · exact Or.inl (hab.trans hbc)
  · exact Or.inl (hbc ▸ hab)
  · exact Or.inl (hab ▸ hbc)
  · exact Or.inr ⟨hab.trans hbc, hiab.trans hibc⟩

/-- The pool restricted to the requested statement type. -/
def typeFilter (st : ClassificationType) (pool : List TrainingExample) :
    List TrainingExample :=
  pool.filter fun e => decide (e.stype = st)

/-- The filtered pool annotated with its insertion indices and stably
ranked: ascending distance, ties by insertion order. -/
def rankPool (d : List ℚ → List ℚ → ℚ) (q : List ℚ)
    (l : List TrainingExample) : List (ℕ × TrainingExample) :=
  l.enum.insertionSort (knnRel d q)

/-- Modelled from the spec: the optional stratified variant — one
best-ranked example per category present in the filtered pool is
guaranteed a slot first, the remaining slots are filled in rank order. -/
def stratifiedPick (d : List ℚ → List ℚ → ℚ) (q : List ℚ)
    (filtered : List TrainingExample) (k : ℕ) : List TrainingExample :=
  let ranked := rankPool d q filtered
  let catPicks := allCategories.filterMap fun c =>
    ranked.find? fun p => decide (p.2.category = c)
  let rest := ranked.filter fun p => !(catPicks.any fun r => r.1 == p.1)
  ((catPicks ++ rest).take k).map Prod.snd

/-- Modelled from the spec: `select_knn_examples` (`KNNSelector.select`)
— filter the pool to the requested statement type, fail with
`insufficient_pool` when fewer than `k` examples remain, otherwise
return the `k` nearest examples in ascending distance order (ties by
insertion order), or the stratified variant when enabled. -/
def select_knn_examples (d : List ℚ → List ℚ → ℚ) (q : List ℚ)
    (pool : List TrainingExample) (k : ℕ) (st : ClassificationType)
    (stratify : Bool) : Except ValidationErrorKind (List TrainingExample) :=
  let filtered := typeFilter st pool
  if filtered.length < k then .error .insufficient_pool
  else if stratify then .ok (stratifiedPick d q filtered k)
  else .ok (((rankPool d q filtered).take k).map Prod.snd)

theorem rankPool_perm (d : List ℚ → List ℚ → ℚ) (q : List ℚ)
    (l : List TrainingExample) : (rankPool d q l).Perm l.enum :=
  List.perm_insertionSort _ _

theorem rankPool_pairwise (d : List ℚ → List ℚ → ℚ) (q : List ℚ)
    (l : List TrainingExample) : (rankPool d q l).Pairwise (knnRel d q) :=
  List.sorted_insertionSort _ _

theorem rankPool_index_ne (d : List ℚ → List ℚ → ℚ) (q : List ℚ)
    (l : List TrainingExample) :
    (rankPool d q l).Pairwise fun a b => a.1 ≠ b.1 := by
  have hmap : ((rankPool d q l).map Prod.fst).Perm (List.range l.length) := by
    have := (rankPool_perm d q l).map Prod.fst
    rwa [List.enum_map_fst] at this
  have hnd : ((rankPool d q l).map Prod.fst).Nodup :=
    hmap.nodup_iff.mpr (List.nodup_range _)
  exact (List.pairwise_map).mp hnd

/-- C2: KNN selection is deterministic — two runs on identical inputs
(including the stratify flag) return identical ordered sequences — and
within the distance ranking every tie is resolved by the original pool
insertion index, never randomly. -/
theorem spec_C2_knn_deterministic
    (d1 d2 : List ℚ → List ℚ → ℚ) (q1 q2 : List ℚ)
    (p1 p2 : List TrainingExample) (k1 k2 : ℕ)
    (st1 st2 : ClassificationType) (b1 b2 : Bool)
    (h : d1 = d2 ∧ q1 = q2 ∧ p1 = p2 ∧ k1 = k2 ∧ st1 = st2 ∧ b1 = b2) :
    select_knn_examples d1 q1 p1 k1 st1 b1 =
      select_knn_examples d2 q2 p2 k2 st2 b2 ∧
    (rankPool d1 q1 (typeFilter st1 p1)).Pairwise
      (fun a b => knnDist d1 q1 a.2 = knnDist d1 q1 b.2 → a.1 < b.1) := by
  obtain ⟨rfl, rfl, rfl, rfl, rfl, rfl⟩ := h
  refine ⟨rfl, ?_⟩
  have hs := rankPool_pairwise d1 q1 (typeFilter st1 p1)
  have hne := rankPool_index_ne d1 q1 (typeFilter st1 p1)
  refine (hs.and hne).imp ?_
  rintro a b ⟨hrel, hab⟩ hd
  rcases hrel with hlt | ⟨_, hle⟩
  · exact absurd hd (ne_of_lt hlt)
  · exact lt_of_le_of_ne hle hab

/-- C6: on the non-stratified path a successful selection returns
exactly `k` examples, each drawn from the pool and of the requested
statement type, in ascending distance order; moreover the selection is
the `k` nearest of the filtered pool: together with the unselected rest
it is a permutation of the filtered pool and every selected distance is
at most every unselected distance. -/
theorem spec_C6_knn_contract (d : List ℚ → List ℚ → ℚ) (q : List ℚ)
    (pool : List TrainingExample) (k : ℕ) (st : ClassificationType)
    (out : List TrainingExample)
    (h : select_knn_examples d q pool k st false = .ok out) :
    out.length = k ∧
    (∀ e ∈ out, e ∈ pool ∧ e.stype = st) ∧
    out.Pairwise (fun a b => knnDist d q a ≤ knnDist d q b) ∧
    ∃ rest, (out ++ rest).Perm (typeFilter st pool) ∧
      ∀ a ∈ out, ∀ b ∈ rest, knnDist d q a ≤ knnDist d q b := by
  unfold select_knn_examples at h
  by_cases hlen : (typeFilter st pool).length < k
  · simp [hlen] at h
  · simp only [hlen, if_false, Bool.false_eq_true, reduceIte] at h
    have hout : out = ((rankPool d q (typeFilter st pool)).take k).map Prod.snd := by
      exact (Except.ok.injEq _ _).mp h.symm
    set ranked := rankPool d q (typeFilter st pool) with hranked
    have hperm : ranked.Perm (typeFilter st pool).enum := rankPool_perm d q _
    have hrlen : ranked.length = (typeFilter st pool).length := by
      have := hperm.length_eq
      simpa [List.enum_length] using this
    have hs : ranked.Pairwise (knnRel d q) := rankPool_pairwise d q _
    refine ⟨?_, ?_, ?_, ?_⟩
    · rw [hout]
      simp only [List.length_map, List.length_take]
      omega
    · intro e he
      rw [hout] at he
      obtain ⟨p, hp, rfl⟩ := List.mem_map.mp he
      have hpr : p ∈ ranked := (List.take_sublist k ranked).mem hp
      have hpe : p ∈ (typeFilter st pool).enum := hperm.mem_iff.mp hpr
      have : p.2 ∈ typeFilter st pool := by
        have := List.mem_map_of_mem Prod.snd hpe
        rwa [List.enum_map_snd] at this
      have hf := List.mem_filter.mp this
      exact ⟨hf.1, of_decide_eq_true hf.2⟩
    · rw [hout]
      refine (List.pairwise_map).mpr ?_
      refine ((hs.sublist (List.take_sublist k ranked)).imp ?_)
      intro a b hab
      rcases hab with hlt | ⟨heq, _⟩
      · exact le_of_lt hlt
      · exact le_of_eq heq
    · refine ⟨(ranked.drop k).map Prod.snd, ?_, ?_⟩
      · rw [hout, ← List.map_append, List.take_append_drop]
        have := hperm.map Prod.snd
        rwa [List.enum_map_snd] at this
      · intro a ha b hb
        rw [hout] at ha
        obtain ⟨p, hp, rfl⟩ := List.mem_map.mp ha
        obtain ⟨r, hr, rfl⟩ := List.mem_map.mp hb
        have hsplit : ranked.Pairwise (knnRel d q) := hs
        rw [← List.take_append_drop k ranked] at hsplit
        have hrel := (List.pairwise_append.mp hsplit).2.2 p hp r hr
        rcases hrel with hlt | ⟨heq, _⟩
        · exact le_of_lt hlt
        · exact le_of_eq heq

/-- Example distance metric used by the witnesses: the leading
coordinate of the candidate embedding (a valid configured metric). -/
def exDist (q v : List ℚ) : ℚ := v.headD (q.headD 0)

/-- Example pool entry: an open statement at distance 1. -/
def exA : TrainingExample :=
  { statement := "data at repository", stype := .data
    category := .open_, embedding := [1] }

/-- Example pool entry: a closed statement at distance 0. -/
def exB : TrainingExample :=
  { statement := "upon request", stype := .data
    category := .closed, embedding := [0] }

/-- C2 witness: two runs on a concrete identical input agree. -/
theorem spec_C2_knn_deterministic_witness :
    select_knn_examples exDist [0, 1] [exA, exB] 1 ClassificationType.data false =
      select_knn_examples exDist [0, 1] [exA, exB] 1 ClassificationType.data false :=
  (spec_C2_knn_deterministic exDist exDist [0, 1] [0, 1] [exA, exB] [exA, exB]
    1 1 ClassificationType.data ClassificationType.data false false
    ⟨rfl, rfl, rfl, rfl, rfl, rfl⟩).1

/-- C6 witness: on the concrete pool `[exA, exB]` with `k = 1` and query
`[0, 1]` the selection succeeds with `[exB]`, which indeed has length 1. -/
theorem spec_C6_knn_contract_witness :
    ([exB] : List TrainingExample).length = 1 :=
  (spec_C6_knn_contract exDist [0, 1] [exA, exB] 1 ClassificationType.data
    [exB] (by rfl)).1

/-! ## Batch processing (`openness_classifier.batch`) -/

/-- Job status of a `BatchJob`. -/
inductive BatchStatus where
  | pending
  | running
  | completed
  | failed
  | partially_completed
deriving DecidableEq, Repr

/-- The `LLMError` kinds of the error taxonomy. -/
inductive LLMErrorKind where
  | transient
  | timeout
  | invalid_request
deriving DecidableEq, Repr

/-- A per-item failure: a provider error or a validation error. -/
inductive ItemFailure where
  | llm : LLMErrorKind → ItemFailure
  | validation : ValidationErrorKind → ItemFailure
deriving DecidableEq, Repr

/-- Modelled from the spec: only `LLMError(kind=transient)` failures are
ever retried; `invalid_request`, `timeout` and validation failures are
terminal at once. -/
def retryable : ItemFailure → Bool
  | .llm .transient => true
  | _ => false

/-- The outcome of one classification attempt for one item. -/
inductive ItemOutcome where
  | success : Classification → ItemOutcome
  | failure : ItemFailure → ItemOutcome

/-- The terminal per-item record of a batch run. -/
inductive ItemResult where
  | done : Classification → ItemResult
  | error : ItemFailure → ItemResult
deriving DecidableEq, Repr

/-- Whether a per-item record is a success. -/
def ItemResult.isSuccess : ItemResult → Bool
  | .done _ => true
  | .error _ => false

/-- Modelled from the spec: the retry loop for one item.  `oc n` is the
outcome of attempt number `n`; `fuel` is the number of attempts still
allowed.  Returns the terminal record and the count of attempts made. -/
def runItemAux (oc : ℕ → ItemOutcome) (a : ℕ) : ℕ → ItemResult × ℕ
  | 0 => (.error (.llm .transient), a)
  | fuel + 1 =>
      match oc a with
      | .success c => (.done c, a + 1)
      | .failure f =>
          if retryable f && decide (fuel ≠ 0) then runItemAux oc (a + 1) fuel
          else (.error f, a + 1)

/-- Run one item with an attempt limit of `limit`. -/
def runItem (oc : ℕ → ItemOutcome) (limit : ℕ) : ItemResult × ℕ :=
  runItemAux oc 0 limit

/-- Rank of a status in the `pending → running → terminal` order. -/
def statusRank : BatchStatus → ℕ
  | .pending => 0
  | .running => 1
  | _ => 2

/-- Modelled from the spec: the terminal status of a batch — `completed`
when all items succeeded, `failed` when all items failed,
`partially_completed` otherwise. -/
def finalStatus (rs : List ItemResult) : BatchStatus :=
  if rs.all ItemResult.isSuccess then .completed
  else if rs.all fun r => !(ItemResult.isSuccess r) then .failed
  else .partially_completed

/-- The configuration error kind raised for a wholesale bad batch. -/
inductive ConfigurationErrorKind where
  | invalid_parameter
deriving DecidableEq, Repr

/-- Observable state of a finished batch run: per-item records, per-item
attempt counts, the sequence of status snapshots (status together with
the number of item results recorded at that point), and the terminal
status. -/
structure BatchRun where
  results : List ItemResult
  attempts : List ℕ
  trace : List (BatchStatus × ℕ)
  status : BatchStatus
deriving Repr

/-- Modelled from the spec: `BatchJob` execution — an empty input set is
a wholesale configuration failure before execution starts; otherwise the
job moves `pending → running` when the first item begins, records each
item's terminal result in order, and ends in the terminal status
computed from the per-item results. -/
def runBatch (ocs : List (ℕ → ItemOutcome)) (limit : ℕ) :
    Except ConfigurationErrorKind BatchRun :=
  if ocs.isEmpty then .error .invalid_parameter
  else
    let rs := ocs.map fun oc => (runItem oc limit).1
    .ok
      { results := rs
        attempts := ocs.map fun oc => (runItem oc limit).2
        trace := (BatchStatus.pending, 0) ::
          (((List.range ocs.length).map fun i => (BatchStatus.running, i)) ++
            [(finalStatus rs, ocs.length)])
        status := finalStatus rs }

theorem pairwise_of_total {α : Type} (R : α → α → Prop) (hR : ∀ a b, R a b) :
    ∀ l : List α, l.Pairwise R
  | [] => List.Pairwise.nil
  | x :: xs => List.Pairwise.cons (fun b _ => hR x b) (pairwise_of_total R hR xs)

theorem statusRank_finalStatus (rs : List ItemResult) :
    statusRank (finalStatus rs) = 2 := by
  unfold finalStatus
  split
  · rfl
  · split <;> rfl

theorem exists_false_of_not_all (p : ItemResult → Bool) (rs : List ItemResult)
    (h : ¬ rs.all p = true) : ∃ r ∈ rs, p r = false := by
  have hn := List.all_eq_true.not.mp h
  push_neg at hn
  obtain ⟨r, hmem, hfail⟩ := hn
  exact ⟨r, hmem, by simpa using hfail⟩

theorem finalStatus_completed_iff (rs : List ItemResult) (hne : rs ≠ []) :
    finalStatus rs = .completed ↔ ∀ r ∈ rs, r.isSuccess = true := by
  unfold finalStatus
  by_cases h1 : rs.all ItemResult.isSuccess
  · rw [if_pos h1]
    exact iff_of_true rfl fun r hr => List.all_eq_true.mp h1 r hr
  · rw [if_neg h1]
    obtain ⟨r0, hr0, hr0f⟩ := exists_false_of_not_all _ rs h1
    have hnot : ¬ ∀ r ∈ rs, r.isSuccess = true := by
      intro hall
      rw [hall r0 hr0] at hr0f
      exact absurd hr0f (by decide)
    by_cases h2 : rs.all fun r => !(ItemResult.isSuccess r)
    · rw [if_pos h2]
      exact iff_of_false (by decide) hnot
    · rw [if_neg h2]
      exact iff_of_false (by decide) hnot

theorem finalStatus_failed_iff (rs : List ItemResult) (hne : rs ≠ []) :
    finalStatus rs = .failed ↔ ∀ r ∈ rs, r.isSuccess = false := by
  unfold finalStatus
  by_cases h1 : rs.all ItemResult.isSuccess
  · rw [if_pos h1]
    obtain ⟨r0, hr0⟩ := List.exists_mem_of_ne_nil rs hne
    refine iff_of_false (by decide) fun hall => ?_
    have ht := List.all_eq_true.mp h1 r0 hr0
    rw [hall r0 hr0] at ht
    exact (Bool.false_ne_true ht)
  · rw [if_neg h1]
    by_cases h2 : rs.all fun r => !(ItemResult.isSuccess r)
    · rw [if_pos h2]
      refine iff_of_true rfl fun r hr => ?_
      have := List.all_eq_true.mp h2 r hr
      simpa using this
    · rw [if_neg h2]
      refine iff_of_false (by decide) fun hall => ?_
      exact h2 (List.all_eq_true.mpr fun r hr => by simp [hall r hr])

theorem finalStatus_partial_iff (rs : List ItemResult) (hne : rs ≠ []) :
    finalStatus rs = .partially_completed ↔
      ((∃ r ∈ rs, r.isSuccess = true) ∧ (∃ r ∈ rs, r.isSuccess = false)) := by
  unfold finalStatus
  by_cases h1 : rs.all ItemResult.isSuccess
  · rw [if_pos h1]
    refine iff_of_false (by decide) fun hc => ?_
    obtain ⟨-, r0, hr0, hr0f⟩ := hc
    have := List.all_eq_true.mp h1 r0 hr0
    rw [hr0f] at this
    exact Bool.false_ne_true this
  · rw [if_neg h1]
    by_cases h2 : rs.all fun r => !(ItemResult.isSuccess r)
    · rw [if_pos h2]
      refine iff_of_false (by decide) fun hc => ?_
      obtain ⟨⟨r0, hr0, hr0t⟩, -⟩ := hc
      have := List.all_eq_true.mp h2 r0 hr0
      rw [hr0t] at this
      simp at this
    · rw [if_neg h2]
      refine iff_of_true rfl ⟨?_, exists_false_of_not_all _ rs h1⟩
      obtain ⟨r, hmem, hfail⟩ := exists_false_of_not_all _ rs h2
      exact ⟨r, hmem, by simpa using hfail⟩

theorem runBatch_ok (ocs : List (ℕ → ItemOutcome)) (limit : ℕ) (run : BatchRun)
    (h : runBatch ocs limit = .ok run) :
    ocs ≠ [] ∧
    run = { results := ocs.map fun oc => (runItem oc limit).1
            attempts := ocs.map fun oc => (runItem oc limit).2
            trace := (BatchStatus.pending, 0) ::
              (((List.range ocs.length).map fun i => (BatchStatus.running, i)) ++
                [(finalStatus (ocs.map fun oc => (runItem oc limit).1),
                  ocs.length)])
            status := finalStatus (ocs.map fun oc => (runItem oc limit).1) } := by
  unfold runBatch at h
  by_cases he : ocs.isEmpty
  · simp [he] at h
  · simp only [he, if_false, Bool.false_eq_true, reduceIte, Except.ok.injEq] at h
    exact ⟨fun hnil => he (by simp [hnil]), h.symm⟩

/-- C3: a batch run's status snapshots are monotone in the
`pending → running → terminal` order (no regression), every snapshot's
recorded-result count is at most the input size, the per-item result
count equals the input size, and the terminal status is `completed` iff
all items succeeded, `failed` iff all failed, and `partially_completed`
iff at least one succeeded and at least one failed. -/
theorem spec_C3_batch_status (ocs : List (ℕ → ItemOutcome)) (limit : ℕ)
    (run : BatchRun) (h : runBatch ocs limit = .ok run) :
    run.trace.Pairwise (fun a b => statusRank a.1 ≤ statusRank b.1) ∧
    (∀ p ∈ run.trace, p.2 ≤ ocs.length) ∧
    run.results.length = ocs.length ∧
    (run.status = .completed ↔ ∀ r ∈ run.results, r.isSuccess = true) ∧
    (run.status = .failed ↔ ∀ r ∈ run.results, r.isSuccess = false) ∧
    (run.status = .partially_completed ↔
      ((∃ r ∈ run.results, r.isSuccess = true) ∧
        (∃ r ∈ run.results, r.isSuccess = false))) := by
  obtain ⟨hne, rfl⟩ := runBatch_ok ocs limit run h
  set rs := ocs.map fun oc => (runItem oc limit).1 with hrs
  have hrsne : rs ≠ [] := by simpa [hrs] using hne
  refine ⟨?_, ?_, ?_, ?_, ?_, ?_⟩
  · refine List.Pairwise.cons ?_ ?_
    · intro b _
      exact Nat.zero_le _
    · refine (List.pairwise_append).mpr ⟨?_, ?_, ?_⟩
      · exact (List.pairwise_map).mpr
          (pairwise_of_total _ (fun a b => Nat.le_refl _) _)
      · exact List.pairwise_singleton _ _
      · intro a ha b hb
        obtain ⟨i, -, rfl⟩ := List.mem_map.mp ha
        have hb1 : b = (finalStatus rs, ocs.length) := by simpa using hb
        rw [hb1]
        show statusRank BatchStatus.running ≤ statusRank (finalStatus rs)
        rw [statusRank_finalStatus]
        decide
  · intro p hp
    rcases List.mem_cons.mp hp with rfl | hp2
    · exact Nat.zero_le _
    · rcases List.mem_append.mp hp2 with hp1 | hp1
      · obtain ⟨i, hi, rfl⟩ := List.mem_map.mp hp1
        exact le_of_lt (List.mem_range.mp hi)
      · have hpe : p = (finalStatus rs, ocs.length) := by simpa using hp1
        rw [hpe]
  · simp [hrs]
  · exact finalStatus_completed_iff rs hrsne
  · exact finalStatus_failed_iff rs hrsne
  · exact finalStatus_partial_iff rs hrsne

theorem runItemAux_all_transient (oc : ℕ → ItemOutcome)
    (hall : ∀ n, oc n = .failure (.llm .transient)) :
    ∀ fuel a, runItemAux oc a (fuel + 1) =
      (.error (.llm .transient), a + fuel + 1) := by
  intro fuel
  induction fuel with
  | zero =>
      intro a
      unfold runItemAux
      rw [hall a]
      show (if (retryable (.llm .transient) && decide ((0 : ℕ) ≠ 0)) = true then
          runItemAux oc (a + 1) 0
        else (.error (.llm .transient), a + 1)) =
          (.error (.llm .transient), a + 0 + 1)
      simp
  | succ m ih =>
      intro a
      unfold runItemAux
      rw [hall a]
      show (if (retryable (.llm .transient) && decide (m + 1 ≠ 0)) = true then
          runItemAux oc (a + 1) (m + 1)
        else (.error (.llm .transient), a + 1)) =
          (.error (.llm .transient), a + (m + 1) + 1)
      rw [if_pos (by simp [retryable])]
      rw [ih (a + 1)]
      congr 1
      omega

/-- C4: only transient provider failures are retried — a non-retryable
first failure is recorded at once as the item's terminal error after a
single attempt (zero retries) — an always-transiently-failing item is
attempted exactly `limit` times before being marked `error`, and a batch
whose items all always fail transiently ends with status `failed`. -/
theorem spec_C4_retry_policy (limit : ℕ) (hlim : 1 ≤ limit) :
    (∀ oc : ℕ → ItemOutcome, ∀ f, retryable f = false →
      oc 0 = .failure f → runItem oc limit = (.error f, 1)) ∧
    (∀ oc : ℕ → ItemOutcome, (∀ n, oc n = .failure (.llm .transient)) →
      runItem oc limit = (.error (.llm .transient), limit)) ∧
    (∀ ocs : List (ℕ → ItemOutcome), ∀ run : BatchRun,
      (∀ oc ∈ ocs, ∀ n, oc n = .failure (.llm .transient)) →
      runBatch ocs limit = .ok run → run.status = .failed) := by
  obtain ⟨m, rfl⟩ : ∃ m, limit = m + 1 := ⟨limit - 1, by omega⟩
  refine ⟨?_, ?_, ?_⟩
  · intro oc f hret h0
    unfold runItem runItemAux
    rw [h0]
    show (if (retryable f && decide (m ≠ 0)) = true then runItemAux oc (0 + 1) m
      else (ItemResult.error f, 0 + 1)) = (ItemResult.error f, 1)
    rw [hret]
    simp
  · intro oc hall
    unfold runItem
    rw [runItemAux_all_transient oc hall m 0]
    congr 1
    omega
  · intro ocs run hall h
    obtain ⟨hne, rfl⟩ := runBatch_ok ocs (m + 1) run h
    show finalStatus _ = .failed
    rw [finalStatus_failed_iff _ (by simpa using hne)]
    intro r hr
    obtain ⟨oc, hoc, rfl⟩ := List.mem_map.mp hr
    unfold runItem
    rw [runItemAux_all_transient oc (hall oc hoc) m 0]
    rfl

/-- C4 witness: with retry limit 3, an always-transiently-failing item
is attempted exactly 3 times and recorded as a transient error. -/
theorem spec_C4_retry_policy_witness :
    runItem (fun _ => ItemOutcome.failure (ItemFailure.llm LLMErrorKind.transient))
        3 =
      (ItemResult.error (ItemFailure.llm LLMErrorKind.transient), 3) :=
  (spec_C4_retry_policy 3 (by decide)).2.1 _ fun _ => rfl

/-- A trivially succeeding outcome used by the C3 witness. -/
def exOutcome : ℕ → ItemOutcome := fun _ =>
  .success { category := .open_, confidence := 1, rationale := none
             stype := .data }

/-- C3 witness: a concrete one-item batch produces exactly one per-item
result. -/
theorem spec_C3_batch_status_witness :
    ([ItemResult.done { category := .open_, confidence := 1, rationale := none
                        stype := .data }] : List ItemResult).length = 1 :=
  (spec_C3_batch_status [exOutcome] 1
    { results := [ItemResult.done { category := .open_, confidence := 1
                                    rationale := none, stype := .data }]
      attempts := [1]
      trace := [(BatchStatus.pending, 0), (BatchStatus.running, 0),
        (BatchStatus.completed, 1)]
      status := BatchStatus.completed }
    (by rfl)).2.2.1

/-! ## Cross-validation (`openness_classifier.validation`) -/

/-- Fold sizes for `n` items in `k` folds: the first `n % k` folds get
one extra item. -/
def foldSizes (n k : ℕ) : List ℕ :=
  (List.range k).map fun f => n / k + if f < n % k then 1 else 0

/-- Split a list into consecutive chunks of the given sizes. -/
def splitSizes : List ℕ → List TrainingExample → List (List TrainingExample)
  | [], _ => []
  | s :: ss, l => l.take s :: splitSizes ss (l.drop s)

/-- Modelled from the spec: the deterministic seed-driven partition of
the labeled pool into `k` roughly equal folds — the seed shuffles the
pool (modelled as a rotation) and the shuffled pool is cut into
consecutive chunks whose sizes differ by at most one. -/
def makeFolds (seed : ℕ) (pool : List TrainingExample) (k : ℕ) :
    List (List TrainingExample) :=
  splitSizes (foldSizes pool.length k) (pool.rotate seed)

/-- Modelled from the spec: `cross_validate` — reject fewer than 2 folds
or more folds than pool items with a `ValidationError`; otherwise hold
out each fold once as synthetic queries classified (by the supplied
classifier) against the remaining folds, and aggregate the resulting
(predicted, actual) pairs into metrics. -/
def cross_validate
    (classify : TrainingExample → List TrainingExample → OpennessCategory)
    (pool : List TrainingExample) (k_folds : ℕ) (seed : ℕ) :
    Except ValidationErrorKind ClassificationMetrics :=
  if k_folds < 2 ∨ pool.length < k_folds then .error .insufficient_pool
  else
    let folds := makeFolds seed pool k_folds
    let pairs := (folds.enum.map fun fi =>
      let rest := ((folds.enum.filter fun gj => decide (gj.1 ≠ fi.1)).map
        Prod.snd).join
      fi.2.map fun e => (classify e rest, e.category)).join
    .ok (compute_metrics pairs)

theorem sum_map_add_ite (c : ℕ) (p : ℕ → Prop) [DecidablePred p]
    (l : List ℕ) :
    (l.map fun f => c + if p f then 1 else 0).sum =
      c * l.length + l.countP fun f => decide (p f) := by
  induction l with
  | nil => simp
  | cons x xs ih =>
      by_cases hx : p x <;>
        simp [List.countP_cons, hx, ih, Nat.mul_succ] <;> omega

theorem countP_lt_range (k m : ℕ) :
    (List.range k).countP (fun f => decide (f < m)) = min m k := by
  induction k with
  | zero => simp
  | succ j ih =>
      rw [List.range_succ, List.countP_append, ih]
      by_cases hj : j < m <;> simp [hj] <;> omega

theorem sum_foldSizes (n k : ℕ) (hk : 0 < k) : (foldSizes n k).sum = n := by
  unfold foldSizes
  rw [sum_map_add_ite (n / k) (fun f => f < n % k) (List.range k)]
  rw [countP_lt_range k (n % k), List.length_range]
  have hmod : n % k < k := Nat.mod_lt n hk
  have hmin : min (n % k) k = n % k := Nat.min_eq_left (le_of_lt hmod)
  rw [hmin]
  exact Nat.div_add_mod' n k

theorem splitSizes_length (ss : List ℕ) (l : List TrainingExample) :
    (splitSizes ss l).length = ss.length := by
  induction ss generalizing l with
  | nil => rfl
  | cons s ss ih => simp [splitSizes, ih]

theorem splitSizes_join (ss : List ℕ) (l : List TrainingExample) :
    (splitSizes ss l).join = l.take ss.sum := by
  induction ss generalizing l with
  | nil => simp [splitSizes]
  | cons s ss ih =>
      simp only [splitSizes, List.join_cons, ih, List.sum_cons]
      rw [List.take_add, List.take_drop]
  -- `take (s + ss.sum) l = take s l ++ take ss.sum (drop s l)`

theorem splitSizes_lengths (ss : List ℕ) (l : List TrainingExample)
    (h : ss.sum ≤ l.length) :
    (splitSizes ss l).map List.length = ss := by
  induction ss generalizing l with
  | nil => rfl
  | cons s ss ih =>
      simp only [List.sum_cons] at h
      simp only [splitSizes, List.map_cons, List.length_take]
      rw [ih (l.drop s) (by simp only [List.length_drop]; omega)]
      have hs : s ⊓ l.length = s := inf_eq_left.mpr (by omega)
      rw [hs]

/-- C8: `cross_validate` rejects a single fold with a `ValidationError`,
and for any fold count between 2 and the pool size the seed-determined
partition yields exactly `k` folds that together are a permutation of
the pool and whose sizes differ pairwise by at most 1. -/
theorem spec_C8_cross_validation
    (classify : TrainingExample → List TrainingExample → OpennessCategory)
    (pool : List TrainingExample) (seed k : ℕ)
    (h2 : 2 ≤ k) (hk : k ≤ pool.length) :
    (∀ s, cross_validate classify pool 1 s =
      .error ValidationErrorKind.insufficient_pool) ∧
    (makeFolds seed pool k).length = k ∧
    ((makeFolds seed pool k).join).Perm pool ∧
    (∀ a ∈ (makeFolds seed pool k).map List.length,
      ∀ b ∈ (makeFolds seed pool k).map List.length, a ≤ b + 1) := by
  have hkpos : 0 < k := by omega
  refine ⟨?_, ?_, ?_, ?_⟩
  · intro s
    unfold cross_validate
    rw [if_pos (Or.inl (by omega))]
  · unfold makeFolds
    rw [splitSizes_length]
    simp [foldSizes]
  · unfold makeFolds
    rw [splitSizes_join, sum_foldSizes pool.length k hkpos]
    have hlr : (pool.rotate seed).length = pool.length :=
      List.length_rotate pool seed
    rw [← hlr, List.take_length]
    exact List.rotate_perm pool seed
  · have hm : (makeFolds seed pool k).map List.length = foldSizes pool.length k := by
      unfold makeFolds
      apply splitSizes_lengths
      rw [sum_foldSizes pool.length k hkpos, List.length_rotate pool seed]
    rw [hm]
    intro a ha b hb
    unfold foldSizes at ha hb
    obtain ⟨fa, -, rfl⟩ := List.mem_map.mp ha
    obtain ⟨fb, -, rfl⟩ := List.mem_map.mp hb
    by_cases ha1 : fa < pool.length % k <;>
      by_cases hb1 : fb < pool.length % k <;> simp [ha1, hb1] <;> omega

/-- C8 witness: on a concrete two-example pool with two folds the
partition has exactly two folds. -/
theorem spec_C8_cross_validation_witness :
    (makeFolds 0 [exA, exB] 2).length = 2 :=
  (spec_C8_cross_validation (fun _ _ => OpennessCategory.open_) [exA, exB] 0 2
    (by decide) (by decide)).2.1
